import Mathlib

/-!
Verification of the HanSign signature-pad stroke engine
(`src/components/SignaturePad.tsx` together with its geometry helpers
`src/utils/geometry.ts`).

Shallow embedding conventions:
* `Point` mirrors the `Point` interface of `types.ts`: coordinates and the
  timestamp are rationals (JS numbers on which the code only performs
  field arithmetic and comparisons), `pressure` is an optional rational,
  `pointerType` an optional string.
* Widths, distances and velocities are real numbers because
  `getDistance` takes a square root.
* Canvas painting is modelled as an explicit log of painted segments;
  `drawCurve`'s single `ctx.stroke()` call appends one `Segment`.
* The mutable refs of the component (`isDrawing`, `lastPoint`,
  `lastWidth`, the stroke store) become fields of an explicit state
  `Sys`, and each event handler becomes a state-transforming function.
-/

namespace HanSign

/-- `Point` from `src/types.ts`: x, y, optional pressure, time, optional
pointerType. -/
structure Point where
  x : ℚ
  y : ℚ
  pressure : Option ℚ
  time : ℚ
  pointerType : Option String
deriving DecidableEq, Repr, Inhabited

/-- `Stroke` from `src/types.ts`: an ordered list of points. -/
abbrev Stroke := List Point

/-- `ToolType` from `src/types.ts`. -/
inductive Tool where
  | pen
  | pencil
  | calligraphy
deriving DecidableEq, Repr

/-- `DrawingOptions` from `src/types.ts`.  `smoothing` is carried but,
as in the source component, never read by the engine. -/
structure Options where
  color : String
  minWidth : ℝ
  maxWidth : ℝ
  smoothing : ℚ
  streamline : ℚ
  tool : Tool

/-- `getDistance` from `src/utils/geometry.ts`:
`Math.sqrt((p1.x-p2.x)^2 + (p1.y-p2.y)^2)`. -/
noncomputable def getDistance (p1 p2 : Point) : ℝ :=
  Real.sqrt (((p1.x - p2.x : ℚ) : ℝ) ^ 2 + ((p1.y - p2.y : ℚ) : ℝ) ^ 2)

/-- `getVelocity` from `src/utils/geometry.ts`:
`time > 0 ? dist / time : 0`.  (Imported by the component but never
called by `drawCurve`, which inlines its own velocity formula.) -/
noncomputable def getVelocity (p1 p2 : Point) : ℝ :=
  let dist := getDistance p1 p2
  let time := p2.time - p1.time
  if 0 < time then dist / (time : ℝ) else 0

/-- The velocity expression `dist / (p2.time - p1.time + 1)` inlined at
`SignaturePad.tsx` lines 155 and 176 inside `drawCurve`. -/
noncomputable def engineVelocity (p1 p2 : Point) : ℝ :=
  getDistance p1 p2 / ((p2.time - p1.time : ℚ) + 1 : ℝ)

/-- `lerp` from `src/utils/geometry.ts`: `start*(1-t) + end*t`. -/
def lerp (s e t : ℚ) : ℚ := s * (1 - t) + e * t

/-- JS truthiness default `p.pressure || 0.5`: an absent pressure and a
recorded pressure of exactly 0 both yield 0.5. -/
def pressureOr (p : Option ℚ) : ℚ :=
  match p with
  | none => 0.5
  | some v => if v = 0 then 0.5 else v

/-- `getMidPoint` from `src/utils/geometry.ts`: arithmetic mean of the
coordinates and time, pressure blended with the 0.5 default, pointerType
inherited from the first point. -/
def getMidPoint (p1 p2 : Point) : Point :=
  { x := p1.x + (p2.x - p1.x) / 2
    y := p1.y + (p2.y - p1.y) / 2
    time := p1.time + (p2.time - p1.time) / 2
    pressure := some (pressureOr p1.pressure +
      (pressureOr p2.pressure - pressureOr p1.pressure) / 2)
    pointerType := p1.pointerType }

/-- Value of one hexadecimal digit, as `parseInt(-, 16)` reads it
(invalid characters mapped to 0; the component only feeds it `#rrggbb`
colors). -/
def hexDigit (c : Char) : ℕ :=
  if '0' ≤ c ∧ c ≤ '9' then c.toNat - '0'.toNat
  else if 'a' ≤ c ∧ c ≤ 'f' then c.toNat - 'a'.toNat + 10
  else if 'A' ≤ c ∧ c ≤ 'F' then c.toNat - 'A'.toNat + 10
  else 0

/-- `parseInt(color.slice(i, i+2), 16)` as used in `drawCurve` lines
195-197 to pull one color byte out of a `#rrggbb` string. -/
def hexByte (s : String) (i : ℕ) : ℕ :=
  let cs := s.toList
  16 * hexDigit (cs.getD i '0') + hexDigit (cs.getD (i + 1) '0')

/-- The stroke style installed on the context: either a plain CSS color
string (`ctx.strokeStyle = options.color`) or an `rgba(r, g, b, a)`
value built in the pencil branch. -/
inductive Style where
  | css (c : String)
  | rgba (r g b : ℕ) (a : ℚ)
deriving DecidableEq, Repr

/-- One painted quadratic segment: `ctx.moveTo(mid1)`,
`ctx.quadraticCurveTo(p2, mid2)`, `ctx.stroke()` with the given
`lineWidth` and `strokeStyle`. -/
structure Segment where
  mid1 : ℚ × ℚ
  ctrl : ℚ × ℚ
  mid2 : ℚ × ℚ
  width : ℝ
  style : Style

/-- `drawCurve` from `SignaturePad.tsx` lines 131-206, as a pure
function: given the options, the current `lastWidth` memory and the
point list, it either paints nothing (fewer than 3 points) or returns
the painted segment together with the new `lastWidth`. -/
noncomputable def drawCurveStep (opts : Options) (lw : ℝ) (points : List Point) :
    Option (Segment × ℝ) :=
  if points.length < 3 then none
  else
    let p1 := points.getD (points.length - 3) default
    let p2 := points.getD (points.length - 2) default
    let p3 := points.getD (points.length - 1) default
    let mid1 := getMidPoint p1 p2
    let mid2 := getMidPoint p2 p3
    let targetWidth : ℝ :=
      if opts.tool = Tool.pencil then
        max 0.5 (opts.maxWidth * 0.4)
      else if opts.tool = Tool.calligraphy then
        let velocity := engineVelocity p1 p2
        if p2.pointerType = some "pen" then
          let pressure := pressureOr p2.pressure
          opts.minWidth + (opts.maxWidth * 1.5 - opts.minWidth) * (pressure : ℝ) ^ 2
        else
          let maxSpeed : ℝ := 3.5
          let normalizedSpeed := min velocity maxSpeed / maxSpeed
          opts.maxWidth * 1.5 -
            normalizedSpeed * (opts.maxWidth * 1.5 - opts.minWidth * 0.5)
      else
        if p2.pointerType = some "pen" then
          let pressure := pressureOr p2.pressure
          (opts.minWidth + (opts.maxWidth - opts.minWidth) * (pressure : ℝ)) * 1.1
        else
          let velocity := engineVelocity p1 p2
          let maxSpeed : ℝ := 2.5
          let normalizedSpeed := min velocity maxSpeed / maxSpeed
          opts.maxWidth - normalizedSpeed * (opts.maxWidth - opts.minWidth)
    let smoothingFactor : ℝ := if opts.tool = Tool.pencil then 0.2 else 0.6
    let width := lw * smoothingFactor + targetWidth * (1 - smoothingFactor)
    let style : Style :=
      if opts.tool = Tool.pencil then
        Style.rgba (hexByte opts.color 1) (hexByte opts.color 3)
          (hexByte opts.color 5) 0.7
      else
        Style.css opts.color
    some ({ mid1 := (mid1.x, mid1.y), ctrl := (p2.x, p2.y),
            mid2 := (mid2.x, mid2.y), width := width, style := style }, width)

/-- The initial `lastWidth` guess performed by `handlePointerDown`
(lines 220-227). -/
noncomputable def initWidth (opts : Options) (p : Point) : ℝ :=
  if opts.tool = Tool.pencil then opts.maxWidth * 0.5
  else if p.pointerType = some "pen" then
    opts.minWidth + (opts.maxWidth - opts.minWidth) * (pressureOr p.pressure : ℝ)
  else (opts.minWidth + opts.maxWidth) / 2

/-- The state of a scheduled replay loop: the stroke array captured by
`animateDrawing`'s closure plus the mutable `strokeIdx`/`pointIdx`
counters of `drawNext` (lines 282-303). -/
structure ReplayRun where
  captured : List Stroke
  sIdx : ℕ
  pIdx : ℕ

/-- The component state: the React state (`strokes`, `currentStroke`)
and the refs (`isDrawing`, `lastPoint`, `lastWidth`), an optional
pending replay loop, and the cumulative log of `ctx.stroke()` paint
calls (the canvas-clearing `clearRect` calls are not paint events and
are not logged). -/
structure Sys where
  strokes : List Stroke
  current : Stroke
  drawing : Bool
  lastPt : Option Point
  lw : ℝ
  run : Option ReplayRun
  painted : List Segment

/-- Initial component state: empty store, not drawing, `lastWidth`
initialised to `options.maxWidth` (line 30). -/
def Sys.init (opts : Options) : Sys :=
  { strokes := [], current := [], drawing := false, lastPt := none,
    lw := opts.maxWidth, run := none, painted := [] }

/-- `handlePointerDown` (lines 208-228): start drawing, store the point
as `lastPoint` and as the one-element current stroke, and reset
`lastWidth` to the tool-appropriate initial guess. -/
noncomputable def downOp (opts : Options) (e : Point) (st : Sys) : Sys :=
  { st with
    drawing := true
    lastPt := some e
    current := [e]
    lw := initWidth opts e }

/-- The streamline value actually applied by `handlePointerMove` (line
240): the configured streamline, halved for the pencil tool. -/
def effectiveStreamline (opts : Options) : ℚ :=
  if opts.tool = Tool.pencil then opts.streamline * 0.5 else opts.streamline

/-- The stabilizer block of `handlePointerMove` (lines 242-245): when a
previous accepted point exists and the effective streamline is
positive, replace the raw coordinates by a lerp toward the raw point;
time, pressure and pointerType pass through untouched. -/
def stabilize (opts : Options) (raw : Point) (lastPt : Option Point) : Point :=
  match lastPt with
  | some lp =>
      if 0 < effectiveStreamline opts then
        { raw with
          x := lerp lp.x raw.x (1 - effectiveStreamline opts)
          y := lerp lp.y raw.y (1 - effectiveStreamline opts) }
      else raw
  | none => raw

/-- `handlePointerMove` (lines 230-259): ignore when not drawing;
otherwise stabilize the raw point against `lastPoint`, append it to the
current stroke, paint via `drawCurve`, and remember it as `lastPoint`. -/
noncomputable def moveOp (opts : Options) (raw : Point) (st : Sys) : Sys :=
  if st.drawing = false then st
  else
    let p := stabilize opts raw st.lastPt
    let cur := st.current ++ [p]
    match drawCurveStep opts st.lw cur with
    | none => { st with current := cur, lastPt := some p }
    | some (seg, w) =>
        { st with
          current := cur
          lastPt := some p
          painted := st.painted ++ [seg]
          lw := w }

/-- `handlePointerUp` / `handlePointerLeave` (lines 261-270): commit the
current stroke to the store and reset the per-stroke refs. -/
def upOp (st : Sys) : Sys :=
  if st.drawing = false then st
  else
    { st with
      drawing := false
      strokes := st.strokes ++ [st.current]
      current := []
      lastPt := none }

/-- The imperative-handle `clear` (lines 77-85): empty both stroke
collections and wipe the canvas.  It touches neither the `isDrawing`
ref nor any replay loop already scheduled. -/
def clearOp (st : Sys) : Sys :=
  { st with strokes := [], current := [] }

/-- One scheduled invocation of `drawNext` (lines 285-303): stop when
the captured array is exhausted, otherwise either paint the next
growing prefix of the current stroke and advance `pointIdx`, or move on
to the next stroke. -/
noncomputable def tickOp (opts : Options) (st : Sys) : Sys :=
  match st.run with
  | none => st
  | some r =>
    if r.captured.length ≤ r.sIdx then { st with run := none }
    else
      let stroke := r.captured.getD r.sIdx []
      if r.pIdx < stroke.length - 1 then
        let subStroke := stroke.take (r.pIdx + 3)
        match drawCurveStep opts st.lw subStroke with
        | none => { st with run := some ⟨r.captured, r.sIdx, r.pIdx + 1⟩ }
        | some (seg, w) =>
            { st with
              painted := st.painted ++ [seg]
              lw := w
              run := some ⟨r.captured, r.sIdx, r.pIdx + 1⟩ }
      else { st with run := some ⟨r.captured, r.sIdx + 1, 0⟩ }

/-- The imperative-handle `replay` (line 87) = `animateDrawing(strokes)`
(lines 274-306): capture the completed-stroke array, clear the canvas,
and run the first `drawNext` tick synchronously (line 305); subsequent
ticks arrive through `requestAnimationFrame`. -/
noncomputable def replayOp (opts : Options) (st : Sys) : Sys :=
  tickOp opts { st with run := some ⟨st.strokes, 0, 0⟩ }

/-- States reachable from a freshly mounted component by any sequence
of the public operations (pointer down/move/up, clear, replay) and
scheduled replay ticks.  Each event reads the `DrawingOptions` current
at that moment, so every step carries its own options snapshot. -/
inductive Reach : Sys → Prop where
  | init (opts : Options) : Reach (Sys.init opts)
  | down (st : Sys) (opts : Options) (e : Point) :
      Reach st → Reach (downOp opts e st)
  | move (st : Sys) (opts : Options) (raw : Point) :
      Reach st → Reach (moveOp opts raw st)
  | up (st : Sys) : Reach st → Reach (upOp st)
  | clear (st : Sys) : Reach st → Reach (clearOp st)
  | replay (st : Sys) (opts : Options) :
      Reach st → Reach (replayOp opts st)
  | tick (st : Sys) (opts : Options) :
      Reach st → Reach (tickOp opts st)

/-- The paint loop of live capture: `handlePointerMove` appends each
(already stabilized) sample to the accumulated stroke and calls
`drawCurve` on the grown list, threading the `lastWidth` ref.  `acc` is
the stroke captured so far and `rest` the samples still to arrive;
returns the painted segments and the final `lastWidth`. -/
noncomputable def livePaintAux (opts : Options) :
    List Point → List Point → ℝ → List Segment × ℝ
  | _, [], lw => ([], lw)
  | acc, p :: rest, lw =>
      let acc' := acc ++ [p]
      match drawCurveStep opts lw acc' with
      | none => livePaintAux opts acc' rest lw
      | some (seg, lw') =>
          let r := livePaintAux opts acc' rest lw'
          (seg :: r.1, r.2)

/-- Live capture of one stroke whose stored samples are `s`, starting
from `lastWidth` memory `lw`: the first sample plays the role of the
pointer-down point, the rest arrive as pointer moves. -/
noncomputable def liveCaptureWith (opts : Options) (lw : ℝ) (s : List Point) :
    List Segment × ℝ :=
  match s with
  | [] => ([], lw)
  | p0 :: rest => livePaintAux opts [p0] rest lw

/-- The full live pipeline for one stroke: `handlePointerDown` resets
`lastWidth` to the tool-appropriate initial guess for the first sample,
then the remaining samples are painted by `handlePointerMove`. -/
noncomputable def liveCapture (opts : Options) (s : List Point) : List Segment :=
  match s with
  | [] => []
  | p0 :: _ => (liveCaptureWith opts (initWidth opts p0) s).1

/-- The inner `drawNext` loop of `animateDrawing` restricted to one
stroke, linearized: while `pointIdx < stroke.length - 1`, paint
`drawCurve(stroke.slice(0, pointIdx + 3))` and advance `pointIdx`.
Returns the painted segments and the final `lastWidth`. -/
noncomputable def replayStrokeFrom (opts : Options) (stroke : List Point) :
    ℕ → ℝ → List Segment × ℝ
  | j, lw =>
    if _h : j < stroke.length - 1 then
      match drawCurveStep opts lw (stroke.take (j + 3)) with
      | none => replayStrokeFrom opts stroke (j + 1) lw
      | some (seg, lw') =>
          let r := replayStrokeFrom opts stroke (j + 1) lw'
          (seg :: r.1, r.2)
    else ([], lw)
termination_by j _ => stroke.length - 1 - j
decreasing_by all_goals omega

/-- `animateDrawing` (lines 274-306) as a pure function over the
captured stroke array, linearizing the `requestAnimationFrame` chain:
each stroke is replayed in turn with `pointIdx` restarting at 0, and
the `lastWidth` ref — which `animateDrawing` never resets — threads
through unchanged from whatever value it held when replay began. -/
noncomputable def animateDrawing (opts : Options) :
    List Stroke → ℝ → List Segment
  | [], _ => []
  | s :: rest, lw =>
      let r := replayStrokeFrom opts s 0 lw
      r.1 ++ animateDrawing opts rest r.2

/-- One SVG path-data command, as written into the `d` attribute by
`generateSVG` (coordinates already passed through `toFixed(2)`). -/
inductive SvgCmd where
  | move (x y : ℚ)
  | line (x y : ℚ)
deriving DecidableEq, Repr

/-- One `<path .../>` element emitted by `generateSVG`. -/
structure SvgPath where
  d : List SvgCmd
  stroke : String
  strokeOpacity : ℚ
  strokeWidth : ℝ

/-- JavaScript's `x.toFixed(2)` on the rationals the engine produces:
round to two decimal places. -/
def toFixed2 (q : ℚ) : ℚ := (round (q * 100) : ℤ) / 100

/-- The path built by `generateSVG` (lines 316-343) for one stroke with
at least 2 samples: `M` at sample 0, `L` at samples `1 … length-2` from
the `for` loop, and a final `L` at the last sample. -/
def svgPathFor (opts : Options) (stroke : Stroke) : SvgPath :=
  let p0 := stroke.getD 0 default
  let plast := stroke.getD (stroke.length - 1) default
  let d :=
    SvgCmd.move (toFixed2 p0.x) (toFixed2 p0.y) ::
      ((List.range' 1 (stroke.length - 2)).map fun i =>
        let p1 := stroke.getD i default
        SvgCmd.line (toFixed2 p1.x) (toFixed2 p1.y)) ++
      [SvgCmd.line (toFixed2 plast.x) (toFixed2 plast.y)]
  let strokeOpacity : ℚ := if opts.tool = Tool.pencil then 0.7 else 1
  let strokeWidth : ℝ :=
    if opts.tool = Tool.pencil then opts.maxWidth * 0.5 else opts.maxWidth
  { d := d, stroke := opts.color, strokeOpacity := strokeOpacity,
    strokeWidth := strokeWidth }

/-- `generateSVG` (lines 309-348), restricted to the list of emitted
path elements: iterate over the stored strokes in order, skipping every
stroke with fewer than 2 samples. -/
def generateSVGPaths (opts : Options) (strokes : List Stroke) : List SvgPath :=
  strokes.foldl
    (fun acc stroke =>
      if stroke.length < 2 then acc else acc ++ [svgPathFor opts stroke]) []

/-! ## Shared lemmas -/

/-- Append the one extra repaint of the full stroke that the replay
loop performs beyond the live segment sequence. -/
noncomputable def withExtra (opts : Options) (s : List Point)
    (r : List Segment × ℝ) : List Segment × ℝ :=
  match drawCurveStep opts r.2 s with
  | none => r
  | some (seg, lw') => (r.1 ++ [seg], lw')

lemma withExtra_cons (opts : Options) (s : List Point) (seg : Segment)
    (r : List Segment × ℝ) :
    withExtra opts s (seg :: r.1, r.2) =
      (seg :: (withExtra opts s r).1, (withExtra opts s r).2) := by
  unfold withExtra
  cases drawCurveStep opts r.2 s with
  | none => rfl
  | some pr => cases pr; rfl

/-- The replay loop over a single stroke, started at `pointIdx = j`,
paints exactly the segments the live move-loop would paint over the
remaining prefixes, followed by one extra repaint of the full stroke. -/
lemma replay_bridge (opts : Options) (s : List Point) :
    ∀ d j lw, s.length - 2 - j = d → j + 2 ≤ s.length →
      replayStrokeFrom opts s j lw =
        withExtra opts s (livePaintAux opts (s.take (j + 2)) (s.drop (j + 2)) lw) := by
  intro d
  induction d with
  | zero =>
    intro j lw hd hle
    have hj : j = s.length - 2 := by omega
    subst hj
    have hn : 2 ≤ s.length := by omega
    have hdrop : s.drop (s.length - 2 + 2) = [] := by
      apply List.drop_eq_nil_of_le; omega
    have htake : s.take (s.length - 2 + 3) = s := List.take_of_length_le (by omega)
    rw [replayStrokeFrom, dif_pos (by omega : s.length - 2 < s.length - 1)]
    rw [htake, hdrop]
    simp only [livePaintAux, withExtra]
    cases hdc : drawCurveStep opts lw s with
    | none =>
      simp only []
      rw [replayStrokeFrom, dif_neg (by omega)]
    | some pr =>
      obtain ⟨seg, lw'⟩ := pr
      simp only []
      rw [replayStrokeFrom, dif_neg (by omega)]
      simp
  | succ d ih =>
    intro j lw hd hle
    have hjlt : j + 2 < s.length := by omega
    rw [replayStrokeFrom, dif_pos (by omega : j < s.length - 1)]
    have hget : s.drop (j + 2) = s[j+2] :: s.drop (j + 3) :=
      List.drop_eq_getElem_cons hjlt
    have htake : s.take (j + 2) ++ [s[j+2]] = s.take (j + 3) := by
      have h1 := List.take_concat_get s (j+2) hjlt
      rw [List.concat_eq_append] at h1
      exact h1
    rw [hget]
    simp only [livePaintAux]
    rw [htake]
    cases hdc : drawCurveStep opts lw (s.take (j + 3)) with
    | none =>
      simp only []
      rw [ih (j+1) lw (by omega) (by omega)]
    | some pr =>
      obtain ⟨seg, lw'⟩ := pr
      simp only []
      rw [ih (j+1) lw' (by omega) (by omega)]
      rw [show j + 1 + 2 = j + 3 from rfl]
      exact (withExtra_cons opts s seg _).symm

/-- The first pointer-move (second sample overall) never paints, so
live capture of a stroke equals the paint loop started at the 2-sample
prefix. -/
lemma liveCaptureWith_eq_take2 (opts : Options) (s : List Point) (lw : ℝ)
    (h : 2 ≤ s.length) :
    liveCaptureWith opts lw s = livePaintAux opts (s.take 2) (s.drop 2) lw := by
  match s, h with
  | p0 :: p1 :: t, _ =>
    simp only [liveCaptureWith, livePaintAux]
    have hnone : drawCurveStep opts lw [p0, p1] = none := by
      simp [drawCurveStep]
    rw [show [p0] ++ [p1] = [p0, p1] from rfl, hnone]
    simp [List.take, List.drop]

/-! ## Concrete inputs reused by counterexamples and witnesses -/

/-- A three-sample stroke along the x-axis at 1 ms intervals, no
recorded pressure, no pointer type. -/
def cq1 : Point := ⟨0, 0, none, 0, none⟩

def cq2 : Point := ⟨1, 0, none, 1, none⟩

def cq3 : Point := ⟨2, 0, none, 2, none⟩

/-- Pencil options with `minWidth = 1`, `maxWidth = 2`, no streamline. -/
noncomputable def covPencil : Options := ⟨"#000000", 1, 2, 0, 0, Tool.pencil⟩

/-! ## C1: replay vs. live capture -/

/-- C1 (amended): for a single stored stroke of `n ≥ 3` samples, replay
started with `lastWidth` memory `lw` paints exactly the segment
sequence that live capture would paint when its per-stroke reset
produced the same initial width `lw`, followed by one extra segment
that repaints the final three-point window with a once-more-blended
width.  Replay performs no per-stroke `lastWidth` reset of its own, so
its widths agree with the original live capture only when `lw` happens
to equal the live stroke-start reset value; the extra duplicate of the
final window is painted in every case. -/
theorem replay_paints_live_prefix_then_extra (opts : Options) (s : List Point)
    (lw : ℝ) (h3 : 3 ≤ s.length) :
    animateDrawing opts [s] lw =
      (liveCaptureWith opts lw s).1 ++
        (match drawCurveStep opts (liveCaptureWith opts lw s).2 s with
         | none => []
         | some (seg, _) => [seg]) := by
  have h2 : 2 ≤ s.length := by omega
  have hb := replay_bridge opts s (s.length - 2 - 0) 0 lw rfl (by omega)
  rw [liveCaptureWith_eq_take2 opts s lw h2]
  simp only [animateDrawing]
  rw [hb]
  show (withExtra opts s (livePaintAux opts (s.take (0 + 2)) (s.drop (0 + 2)) lw)).1
      ++ [] = _
  rw [show (0 + 2 : ℕ) = 2 from rfl]
  generalize livePaintAux opts (s.take 2) (s.drop 2) lw = X
  unfold withExtra
  cases drawCurveStep opts X.2 s with
  | none => simp
  | some pr => cases pr; simp

/-- Witness for `replay_paints_live_prefix_then_extra` at the concrete
three-sample pencil stroke. -/
theorem replay_paints_live_prefix_then_extra_witness :
    3 ≤ ([cq1, cq2, cq3] : List Point).length ∧
    animateDrawing covPencil [[cq1, cq2, cq3]] 1 =
      (liveCaptureWith covPencil 1 [cq1, cq2, cq3]).1 ++
        (match drawCurveStep covPencil
            (liveCaptureWith covPencil 1 [cq1, cq2, cq3]).2 [cq1, cq2, cq3] with
         | none => []
         | some (seg, _) => [seg]) :=
  ⟨by norm_num,
   replay_paints_live_prefix_then_extra covPencil [cq1, cq2, cq3] 1 (by norm_num)⟩

/-- C1 counterexample: live capture of the concrete pencil stroke
paints one segment of width 21/25, leaving `lastWidth = 21/25`; replay
invoked in that state paints two segments of widths 101/125 and
501/625, so the replayed width sequence is not the live width
sequence. -/
theorem replay_width_sequence_differs_from_live :
    ((liveCapture covPencil [cq1, cq2, cq3]).map fun g => g.width) = [21/25] ∧
    (liveCaptureWith covPencil (initWidth covPencil cq1) [cq1, cq2, cq3]).2 = 21/25 ∧
    ((animateDrawing covPencil [[cq1, cq2, cq3]] (21/25)).map fun g => g.width)
      = [101/125, 501/625] ∧
    ((liveCapture covPencil [cq1, cq2, cq3]).map fun g => g.width) ≠
      ((animateDrawing covPencil [[cq1, cq2, cq3]] (21/25)).map fun g => g.width) := by
  refine ⟨?_, ?_, ?_, ?_⟩
  · simp [liveCapture, liveCaptureWith, livePaintAux, drawCurveStep, initWidth,
      covPencil, cq1, cq2, cq3]
    norm_num
  · simp [liveCaptureWith, livePaintAux, drawCurveStep, initWidth,
      covPencil, cq1, cq2, cq3]
    norm_num
  · simp [animateDrawing, replayStrokeFrom, drawCurveStep, covPencil, cq1, cq2, cq3]
    norm_num
  · intro h
    have := congrArg List.length h
    simp [liveCapture, liveCaptureWith, livePaintAux, animateDrawing,
      replayStrokeFrom, drawCurveStep, initWidth, covPencil, cq1, cq2, cq3] at this

/-! ## C2: clear during replay -/

/-- A session holding one committed three-sample stroke, reached by an
actual pointer-down / move / move / up event sequence. -/
noncomputable def cStored : Sys :=
  upOp (moveOp covPencil cq3 (moveOp covPencil cq2
    (downOp covPencil cq1 (Sys.init covPencil))))

/-- C2 (code-bug evaluation): start a replay of the stored
three-sample stroke, let `clear()` run (the store empties), and deliver
the next scheduled animation tick: the tick still paints a segment,
because `drawNext` checks only `strokeIdx >= allStrokes.length` on the
array captured at replay start and consults no liveness flag — the
clear does not stop the tick loop. -/
theorem tick_paints_after_clear :
    Reach cStored ∧
    (clearOp (replayOp covPencil cStored)).strokes = [] ∧
    (clearOp (replayOp covPencil cStored)).current = [] ∧
    (tickOp covPencil (clearOp (replayOp covPencil cStored))).painted.length =
      (clearOp (replayOp covPencil cStored)).painted.length + 1 := by
  refine ⟨Reach.up _ (Reach.move _ covPencil cq3 (Reach.move _ covPencil cq2
    (Reach.down _ covPencil cq1 (Reach.init covPencil)))), ?_, ?_, ?_⟩
  · simp [cStored, upOp, moveOp, downOp, clearOp, replayOp, tickOp, Sys.init,
      drawCurveStep, stabilize, effectiveStreamline, covPencil, cq1, cq2, cq3]
  · simp [cStored, upOp, moveOp, downOp, clearOp, replayOp, tickOp, Sys.init,
      drawCurveStep, stabilize, effectiveStreamline, covPencil, cq1, cq2, cq3]
  · simp [cStored, upOp, moveOp, downOp, clearOp, replayOp, tickOp, Sys.init,
      drawCurveStep, stabilize, effectiveStreamline, covPencil, cq1, cq2, cq3]

/-! ## C5: session-state invariant -/

/-- A replay tick never touches the active stroke or the drawing flag. -/
lemma tickOp_current_drawing (opts : Options) (st : Sys) :
    (tickOp opts st).current = st.current ∧ (tickOp opts st).drawing = st.drawing := by
  unfold tickOp
  cases st.run with
  | none => exact ⟨rfl, rfl⟩
  | some r =>
    dsimp only
    split
    · exact ⟨rfl, rfl⟩
    · split
      · split
        · exact ⟨rfl, rfl⟩
        · exact ⟨rfl, rfl⟩
      · exact ⟨rfl, rfl⟩

/-- C5 (amended): in every reachable session state a non-empty active
stroke implies the drawing flag is set (and the state carries at most
one active stroke by construction).  The converse direction of the
claimed `iff` is false: `clear()` does not reset the `isDrawing` ref,
so clear during an active stroke leaves `drawing = true` with an empty
active stroke (see the counterexample). -/
theorem nonempty_active_stroke_implies_drawing :
    ∀ st : Sys, Reach st → st.current ≠ [] → st.drawing = true := by
  intro st h
  induction h with
  | init opts => intro hc; simp [Sys.init] at hc
  | down st opts e hst ih => intro _; simp [downOp]
  | move st opts raw hst ih =>
    intro hc
    by_cases hd : st.drawing = false
    · unfold moveOp at hc ⊢
      rw [if_pos hd] at hc ⊢
      exact ih hc
    · have hdt : st.drawing = true := by revert hd; cases st.drawing <;> simp
      unfold moveOp
      rw [if_neg hd]
      dsimp only
      split
      · simp [hdt]
      · simp [hdt]
  | up st hst ih =>
    intro hc
    by_cases hd : st.drawing = false
    · unfold upOp at hc ⊢
      rw [if_pos hd] at hc ⊢
      exact ih hc
    · unfold upOp at hc
      rw [if_neg hd] at hc
      simp at hc
  | clear st hst ih =>
    intro hc
    simp [clearOp] at hc
  | replay st opts hst ih =>
    intro hc
    have hp := tickOp_current_drawing opts { st with run := some ⟨st.strokes, 0, 0⟩ }
    unfold replayOp at hc ⊢
    rw [hp.2]
    apply ih
    rw [hp.1] at hc
    exact hc
  | tick st opts hst ih =>
    intro hc
    have hp := tickOp_current_drawing opts st
    rw [hp.2]
    apply ih
    rw [hp.1] at hc
    exact hc

/-- C5 counterexample: pointer-down then `clear()` reaches a state with
`drawing = true` and an empty active stroke, refuting the claimed
`drawing == true` iff `activeStroke` non-empty. -/
theorem clear_leaves_drawing_flag_set :
    Reach (clearOp (downOp covPencil cq1 (Sys.init covPencil))) ∧
    (clearOp (downOp covPencil cq1 (Sys.init covPencil))).drawing = true ∧
    (clearOp (downOp covPencil cq1 (Sys.init covPencil))).current = [] :=
  ⟨Reach.clear _ (Reach.down _ covPencil cq1 (Reach.init covPencil)),
   by simp [clearOp, downOp, Sys.init],
   by simp [clearOp, downOp, Sys.init]⟩

/-- Witness for `nonempty_active_stroke_implies_drawing` at the state
reached by a single pointer-down. -/
theorem nonempty_active_stroke_implies_drawing_witness :
    (downOp covPencil cq1 (Sys.init covPencil)).current ≠ [] ∧
    (downOp covPencil cq1 (Sys.init covPencil)).drawing = true :=
  ⟨by simp [downOp, Sys.init],
   nonempty_active_stroke_implies_drawing (downOp covPencil cq1 (Sys.init covPencil))
     (Reach.down _ covPencil cq1 (Reach.init covPencil))
     (by simp [downOp, Sys.init])⟩

/-! ## C4: velocity formula -/

/-- A sample 3 px to the right of `cq1`, 1 ms later. -/
def cv2 : Point := ⟨3, 0, none, 1, none⟩

lemma getDistance_cq1_cv2 : getDistance cq1 cv2 = 3 := by
  rw [getDistance]
  have h : (((0 - 3 : ℚ)) : ℝ) ^ 2 + (((0 - 0 : ℚ)) : ℝ) ^ 2 = 9 := by norm_num
  simp only [cq1, cv2]
  rw [h, show (9:ℝ) = 3 ^ 2 by norm_num, Real.sqrt_sq (by norm_num : (0:ℝ) ≤ 3)]

/-- C4 counterexample: for two samples 3 px apart with a 1 ms gap the
engine's inline velocity is `3 / (1 + 1) = 3/2`, while the claimed
`distance / max(1, dt)` is `3`; the two formulas disagree. -/
theorem engine_velocity_deviates_from_claimed_floor :
    engineVelocity cq1 cv2 = 3 / 2 ∧
    getDistance cq1 cv2 / max 1 ((cv2.time - cq1.time : ℚ) : ℝ) = 3 ∧
    engineVelocity cq1 cv2 ≠
      getDistance cq1 cv2 / max 1 ((cv2.time - cq1.time : ℚ) : ℝ) := by
  have hd := getDistance_cq1_cv2
  have ht : ((cv2.time - cq1.time : ℚ) : ℝ) = 1 := by norm_num [cv2, cq1]
  refine ⟨?_, ?_, ?_⟩
  · rw [engineVelocity, hd, ht]; norm_num
  · rw [hd, ht]; norm_num
  · rw [engineVelocity, hd, ht]; norm_num

/-- C4 (amended): for time-ordered samples the engine's velocity is
`distance / (dt + 1)` — the denominator is at least 1 so there is never
a division by zero, and at `dt = 0` it coincides with the claimed 1 ms
floor `distance / 1` — but it equals the claimed
`distance / max(1, dt)` exactly when `dt = 0` or the distance is 0.
(The geometry helper `getVelocity`, which the engine never calls,
returns the fallback 0 at `dt = 0` rather than flooring.) -/
theorem engine_velocity_amended (p1 p2 : Point) (h : 0 ≤ p2.time - p1.time) :
    (0 : ℝ) < ((p2.time - p1.time : ℚ) : ℝ) + 1 ∧
    (engineVelocity p1 p2 =
        getDistance p1 p2 / max 1 ((p2.time - p1.time : ℚ) : ℝ) ↔
      p2.time - p1.time = 0 ∨ getDistance p1 p2 = 0) ∧
    (p2.time - p1.time = 0 → engineVelocity p1 p2 = getDistance p1 p2 / 1) ∧
    (p2.time - p1.time = 0 → getVelocity p1 p2 = 0) := by
  set dt : ℝ := ((p2.time - p1.time : ℚ) : ℝ) with hdtdef
  have hdt : 0 ≤ dt := by rw [hdtdef]; exact_mod_cast h
  have hd0 : 0 ≤ getDistance p1 p2 := Real.sqrt_nonneg _
  refine ⟨by linarith, ?_, ?_, ?_⟩
  · constructor
    · intro heq
      by_cases hq : p2.time - p1.time = 0
      · exact Or.inl hq
      · right
        have hdtpos : 0 < dt := by
          rcases lt_or_eq_of_le hdt with h' | h'
          · exact h'
          · exfalso
            apply hq
            have h2 : ((p2.time - p1.time : ℚ) : ℝ) = 0 := by
              rw [← hdtdef]; exact h'.symm
            exact_mod_cast h2
        have hm : max 1 dt < dt + 1 := by
          apply max_lt <;> linarith
        have hmpos : (0:ℝ) < max 1 dt := lt_of_lt_of_le one_pos (le_max_left _ _)
        rw [engineVelocity] at heq
        rw [div_eq_div_iff (by linarith : (0:ℝ) < dt + 1).ne' hmpos.ne'] at heq
        nlinarith [heq]
    · rintro (hq | hd)
      · rw [engineVelocity]
        have : dt = 0 := by rw [hdtdef, hq]; norm_num
        rw [← hdtdef, this]
        norm_num
      · rw [engineVelocity, hd, ← hdtdef]
        simp
  · intro hq
    have : dt = 0 := by rw [hdtdef, hq]; norm_num
    rw [engineVelocity, ← hdtdef, this]
    norm_num
  · intro hq
    rw [getVelocity]
    simp [hq]

/-- Witness for `engine_velocity_amended` at the concrete pair. -/
theorem engine_velocity_amended_witness :
    (0 : ℚ) ≤ cv2.time - cq1.time ∧
    ((0 : ℝ) < ((cv2.time - cq1.time : ℚ) : ℝ) + 1 ∧
     (engineVelocity cq1 cv2 =
        getDistance cq1 cv2 / max 1 ((cv2.time - cq1.time : ℚ) : ℝ) ↔
       cv2.time - cq1.time = 0 ∨ getDistance cq1 cv2 = 0) ∧
     (cv2.time - cq1.time = 0 → engineVelocity cq1 cv2 = getDistance cq1 cv2 / 1) ∧
     (cv2.time - cq1.time = 0 → getVelocity cq1 cv2 = 0)) :=
  ⟨by norm_num [cv2, cq1], engine_velocity_amended cq1 cv2 (by norm_num [cv2, cq1])⟩

/-! ## C6: stabilizer -/

/-- Pen-tool options with `minWidth = 1`, `maxWidth = 2`, streamline 1/2. -/
noncomputable def covPen : Options := ⟨"#000000", 1, 2, 0, 1/2, Tool.pen⟩

/-- C6: when drawing with a previous accepted point and a positive
configured streamline, the sample appended to the active stroke carries
lerped coordinates — `lerp(lastAccepted, raw, 1 - effectiveStreamline)`
with the streamline halved exactly for the pencil tool — while time,
pressure, and pointerType are the raw sample's values; the raw
coordinates themselves are not stored. -/
theorem stabilizer_appends_lerped_sample (opts : Options) (st : Sys) (raw lp : Point)
    (hdraw : st.drawing = true) (hlp : st.lastPt = some lp)
    (hs : 0 < opts.streamline) :
    (moveOp opts raw st).current = st.current ++
      [{ x := lerp lp.x raw.x
            (1 - (if opts.tool = Tool.pencil then opts.streamline * 0.5
                  else opts.streamline))
         y := lerp lp.y raw.y
            (1 - (if opts.tool = Tool.pencil then opts.streamline * 0.5
                  else opts.streamline))
         pressure := raw.pressure
         time := raw.time
         pointerType := raw.pointerType }] := by
  have heff : 0 < effectiveStreamline opts := by
    rw [effectiveStreamline]
    split
    · positivity
    · exact hs
  have hp : stabilize opts raw st.lastPt =
      { x := lerp lp.x raw.x (1 - effectiveStreamline opts)
        y := lerp lp.y raw.y (1 - effectiveStreamline opts)
        pressure := raw.pressure
        time := raw.time
        pointerType := raw.pointerType } := by
    rw [hlp, stabilize]
    simp [if_pos heff]
  unfold moveOp
  rw [if_neg (by simp [hdraw])]
  dsimp only
  rw [hp]
  rw [effectiveStreamline]
  split <;> rfl

/-- Witness for `stabilizer_appends_lerped_sample`: second sample of a
pen-tool stroke with streamline 1/2. -/
theorem stabilizer_appends_lerped_sample_witness :
    covPen.tool ≠ Tool.pencil ∧
    (moveOp covPen cq2 (downOp covPen cq1 (Sys.init covPen))).current =
      (downOp covPen cq1 (Sys.init covPen)).current ++
      [{ x := lerp cq1.x cq2.x
            (1 - (if covPen.tool = Tool.pencil then covPen.streamline * 0.5
                  else covPen.streamline))
         y := lerp cq1.y cq2.y
            (1 - (if covPen.tool = Tool.pencil then covPen.streamline * 0.5
                  else covPen.streamline))
         pressure := cq2.pressure
         time := cq2.time
         pointerType := cq2.pointerType }] := by
  refine ⟨by simp [covPen], ?_⟩
  exact stabilizer_appends_lerped_sample covPen
    (downOp covPen cq1 (Sys.init covPen)) cq2 cq1
    (by simp [downOp]) (by simp [downOp]) (by norm_num [covPen])

/-! ## C7: pencil tool constants -/

/-- C7: for the pencil tool every painted segment gets target width
`max(0.5, maxWidth*0.4)` blended with factor 0.2
(`width = lastWidth*0.2 + target*(1-0.2)`) and stroke style
`rgba(r, g, b, 0.7)` with the bytes parsed from the configured hex
color — independent of pressure, velocity, and pointerType. -/
theorem pencil_constant_width_and_alpha (opts : Options) (lw : ℝ) (pts : List Point)
    (htool : opts.tool = Tool.pencil) (hlen : 3 ≤ pts.length) :
    (drawCurveStep opts lw pts).map (fun r => (r.1.width, r.1.style)) =
      some (lw * 0.2 + max 0.5 (opts.maxWidth * 0.4) * (1 - 0.2),
            Style.rgba (hexByte opts.color 1) (hexByte opts.color 3)
              (hexByte opts.color 5) 0.7) := by
  rw [drawCurveStep, if_neg (by omega)]
  simp [htool]

/-- Witness for `pencil_constant_width_and_alpha` at the concrete
pencil stroke. -/
theorem pencil_constant_width_and_alpha_witness :
    covPencil.tool = Tool.pencil ∧ 3 ≤ ([cq1, cq2, cq3] : List Point).length ∧
    (drawCurveStep covPencil 1 [cq1, cq2, cq3]).map (fun r => (r.1.width, r.1.style)) =
      some (1 * 0.2 + max 0.5 (covPencil.maxWidth * 0.4) * (1 - 0.2),
            Style.rgba (hexByte covPencil.color 1) (hexByte covPencil.color 3)
              (hexByte covPencil.color 5) 0.7) :=
  ⟨rfl, by norm_num, pencil_constant_width_and_alpha covPencil 1 [cq1, cq2, cq3]
    rfl (by norm_num)⟩

/-! ## C9: zero pressure defaults to 0.5 -/

/-- Replace a point's recorded pressure. -/
def withPressure (p : Point) (v : Option ℚ) : Point := { p with pressure := v }

/-- C9: everywhere the engine reads pressure (`p.pressure || 0.5`), a
recorded pressure of exactly 0 behaves like an absent pressure: the
painted segment, the initial width guess, and the blended midpoint are
identical for the two, and in particular the pen-tool pen-pointer width
blends toward `(minWidth + (maxWidth - minWidth)*0.5)*1.1`. -/
theorem zero_pressure_equals_absent_pressure (opts : Options) (lw : ℝ)
    (p1 p2 p3 q a b : Point) :
    pressureOr (some 0) = pressureOr none ∧
    drawCurveStep opts lw [p1, withPressure p2 (some 0), p3] =
      drawCurveStep opts lw [p1, withPressure p2 none, p3] ∧
    initWidth opts (withPressure q (some 0)) = initWidth opts (withPressure q none) ∧
    getMidPoint (withPressure a (some 0)) b = getMidPoint (withPressure a none) b ∧
    getMidPoint a (withPressure b (some 0)) = getMidPoint a (withPressure b none) ∧
    (opts.tool = Tool.pen → p2.pointerType = some "pen" →
      (drawCurveStep opts lw [p1, withPressure p2 (some 0), p3]).map (fun r => r.2) =
        some (lw * 0.6 +
          ((opts.minWidth + (opts.maxWidth - opts.minWidth) * 0.5) * 1.1)
            * (1 - 0.6))) := by
  refine ⟨by simp [pressureOr], ?_, ?_, ?_, ?_, ?_⟩
  · simp [drawCurveStep, withPressure, pressureOr, getMidPoint,
      engineVelocity, getDistance]
  · simp [initWidth, withPressure, pressureOr]
  · simp [getMidPoint, withPressure, pressureOr]
  · simp [getMidPoint, withPressure, pressureOr]
  · intro htool hpt
    simp [drawCurveStep, htool, hpt, withPressure, pressureOr]

/-- A pen-pointer sample reporting pressure 0. -/
def cqPen : Point := ⟨1, 0, some 0, 1, some "pen"⟩

/-- Witness for `zero_pressure_equals_absent_pressure` with the pen
tool and a pen-pointer middle sample. -/
theorem zero_pressure_equals_absent_pressure_witness :
    pressureOr (some 0) = pressureOr none ∧
    (drawCurveStep covPen 1 [cq1, withPressure cqPen (some 0), cq3]).map
        (fun r => r.2) =
      some (1 * 0.6 +
        ((covPen.minWidth + (covPen.maxWidth - covPen.minWidth) * 0.5) * 1.1)
          * (1 - 0.6)) :=
  ⟨(zero_pressure_equals_absent_pressure covPen 1 cq1 cqPen cq3 cq1 cq1 cq1).1,
   (zero_pressure_equals_absent_pressure covPen 1 cq1 cqPen cq3 cq1 cq1 cq1).2.2.2.2.2
     rfl rfl⟩

/-! ## C10: width and style do not depend on the newest sample -/

/-- C10: two windows agreeing on the two older samples and the
`lastWidth` memory but with arbitrary newest samples produce the same
stroked width, stroke style, start midpoint, control vertex, and new
`lastWidth`; only the end midpoint (dropped by the projection below)
involves the newest sample. -/
theorem segment_width_style_independent_of_newest_point (opts : Options) (lw : ℝ)
    (l : List Point) (p3 p3' : Point) (h : 2 ≤ l.length) :
    (drawCurveStep opts lw (l ++ [p3])).map
        (fun r => (r.1.width, r.1.style, r.1.mid1, r.1.ctrl, r.2)) =
      (drawCurveStep opts lw (l ++ [p3'])).map
        (fun r => (r.1.width, r.1.style, r.1.mid1, r.1.ctrl, r.2)) := by
  have len1 : (l ++ [p3]).length = l.length + 1 := by simp
  have len2 : (l ++ [p3']).length = l.length + 1 := by simp
  have key : ∀ (x : Point) (i : ℕ), i < l.length →
      (l ++ [x]).getD i default = l.getD i default := by
    intro x i hi
    exact List.getD_append _ _ _ _ hi
  rw [drawCurveStep,
    if_neg (show ¬((l ++ [p3]).length < 3) from by rw [len1]; omega)]
  rw [drawCurveStep,
    if_neg (show ¬((l ++ [p3']).length < 3) from by rw [len2]; omega)]
  rw [len1, len2]
  rw [key p3 (l.length + 1 - 3) (by omega), key p3 (l.length + 1 - 2) (by omega),
    key p3' (l.length + 1 - 3) (by omega), key p3' (l.length + 1 - 2) (by omega)]
  dsimp only
  rfl

/-- Witness for `segment_width_style_independent_of_newest_point`:
newest samples `cq3` and `cv2` after the shared window `[cq1, cq2]`. -/
theorem segment_width_style_independent_of_newest_point_witness :
    2 ≤ ([cq1, cq2] : List Point).length ∧
    (drawCurveStep covPen 1 ([cq1, cq2] ++ [cq3])).map
        (fun r => (r.1.width, r.1.style, r.1.mid1, r.1.ctrl, r.2)) =
      (drawCurveStep covPen 1 ([cq1, cq2] ++ [cv2])).map
        (fun r => (r.1.width, r.1.style, r.1.mid1, r.1.ctrl, r.2)) :=
  ⟨by norm_num,
   segment_width_style_independent_of_newest_point covPen 1 [cq1, cq2] cq3 cv2
     (by norm_num)⟩

/-! ## C8: vector export -/

lemma map_getD_range (t : List Point) (f : Point → SvgCmd) :
    (List.range t.length).map (fun i => f (t.getD i default)) = t.map f := by
  induction t with
  | nil => simp
  | cons a t ih =>
    rw [List.length_cons, List.range_succ_eq_map]
    simp only [List.map_cons, List.map_map]
    congr 1

/-- The path data built by `generateSVG` for a stroke of `n ≥ 2`
samples is one move-to at the first sample followed by one line-to per
subsequent sample, in order. -/
lemma svgPathFor_d (opts : Options) (s : Stroke) (h : 2 ≤ s.length) :
    (svgPathFor opts s).d =
      SvgCmd.move (toFixed2 (s.getD 0 default).x) (toFixed2 (s.getD 0 default).y) ::
        s.tail.map (fun p => SvgCmd.line (toFixed2 p.x) (toFixed2 p.y)) := by
  rcases s with _ | ⟨p0, t⟩
  · simp at h
  · simp only [List.length_cons] at h
    simp only [svgPathFor]
    rw [List.cons_append]
    congr 1
    have hcat : List.range' 1 (t.length + 1 - 2) ++ [t.length] =
        List.range' 1 (t.length + 1 - 2 + 1) := by
      rw [List.range'_concat]
      congr 2
      omega
    have hlen2 : t.length + 1 - 2 + 1 = t.length := by omega
    rw [hlen2] at hcat
    have hidx : (p0 :: t).length - 1 = t.length := by simp
    rw [show (p0 :: t).length - 2 = t.length + 1 - 2 from by simp]
    rw [hidx]
    rw [show [SvgCmd.line (toFixed2 ((p0 :: t).getD t.length default).x)
        (toFixed2 ((p0 :: t).getD t.length default).y)] =
      ([t.length].map fun i =>
        SvgCmd.line (toFixed2 ((p0 :: t).getD i default).x)
          (toFixed2 ((p0 :: t).getD i default).y)) from rfl]
    rw [← List.map_append (fun i =>
      SvgCmd.line (toFixed2 ((p0 :: t).getD i default).x)
        (toFixed2 ((p0 :: t).getD i default).y))
      (List.range' 1 (t.length + 1 - 2)) [t.length], hcat]
    rw [List.range'_eq_map_range, List.map_map]
    rw [show (p0 :: t).tail = t from rfl]
    rw [← map_getD_range t (fun p => SvgCmd.line (toFixed2 p.x) (toFixed2 p.y))]
    apply List.map_congr_left
    intro i _
    simp [Function.comp, List.getD_cons_succ, Nat.add_comm 1 i]

lemma generateSVGPaths_foldl (opts : Options) :
    ∀ (strokes : List Stroke) (acc : List SvgPath),
      strokes.foldl
        (fun acc stroke =>
          if stroke.length < 2 then acc else acc ++ [svgPathFor opts stroke]) acc =
      acc ++ strokes.filterMap
        (fun s => if s.length < 2 then none else some (svgPathFor opts s)) := by
  intro strokes
  induction strokes with
  | nil => intro acc; simp
  | cons s rest ih =>
    intro acc
    simp only [List.foldl_cons, List.filterMap_cons]
    by_cases hc : s.length < 2
    · simp only [if_pos hc]
      exact ih acc
    · simp only [if_neg hc]
      rw [ih (acc ++ [svgPathFor opts s])]
      simp

/-- C8: vector export emits exactly one path per stored stroke with at
least 2 samples (strokes with fewer are skipped), whose data is a
move-to at the first sample followed by one line-to per subsequent
sample in order — hence exactly N point commands for N samples — with
constant stroke width `maxWidth*0.5` and opacity 0.7 for the pencil
tool, and `maxWidth` with opacity 1 otherwise. -/
theorem svg_export_path_structure (opts : Options) (strokes : List Stroke) :
    generateSVGPaths opts strokes =
      strokes.filterMap (fun s =>
        if 2 ≤ s.length then
          some { d := SvgCmd.move (toFixed2 (s.getD 0 default).x)
                        (toFixed2 (s.getD 0 default).y) ::
                      s.tail.map (fun p => SvgCmd.line (toFixed2 p.x) (toFixed2 p.y))
                 stroke := opts.color
                 strokeOpacity := if opts.tool = Tool.pencil then 0.7 else 1
                 strokeWidth :=
                   if opts.tool = Tool.pencil then opts.maxWidth * 0.5
                   else opts.maxWidth }
        else none) ∧
    ∀ s ∈ strokes, 2 ≤ s.length →
      (SvgCmd.move (toFixed2 (s.getD 0 default).x) (toFixed2 (s.getD 0 default).y) ::
        s.tail.map (fun p => SvgCmd.line (toFixed2 p.x) (toFixed2 p.y))).length
        = s.length := by
  constructor
  · rw [generateSVGPaths, generateSVGPaths_foldl opts strokes []]
    rw [List.nil_append]
    apply List.filterMap_congr
    intro s _
    by_cases hc : s.length < 2
    · rw [if_pos hc, if_neg (by omega)]
    · rw [if_neg hc, if_pos (by omega)]
      have hd := svgPathFor_d opts s (by omega)
      simp only [svgPathFor] at hd ⊢
      rw [hd]
  · intro s _ hs
    simp only [List.length_cons, List.length_map, List.length_tail]
    omega

/-- Witness for `svg_export_path_structure`: a two-sample stroke yields
a path of exactly two commands. -/
theorem svg_export_path_structure_witness :
    ([cq1, cq2] : List Point) ∈ ([[cq1, cq2]] : List Stroke) ∧
    2 ≤ ([cq1, cq2] : List Point).length ∧
    (SvgCmd.move (toFixed2 (([cq1, cq2] : List Point).getD 0 default).x)
        (toFixed2 (([cq1, cq2] : List Point).getD 0 default).y) ::
      ([cq1, cq2] : List Point).tail.map
        (fun p => SvgCmd.line (toFixed2 p.x) (toFixed2 p.y))).length
      = ([cq1, cq2] : List Point).length :=
  ⟨by simp, by norm_num,
   (svg_export_path_structure covPen [[cq1, cq2]]).2 [cq1, cq2] (by simp) (by norm_num)⟩

/-! ## C3: width bounds -/


/-- A recorded pressure, when present, lies in [0,1] (the range of
`PointerEvent.pressure`). -/
def validPressure (p : Point) : Prop := ∀ v, p.pressure = some v → 0 ≤ v ∧ v ≤ 1

/-- Amended lower width bound. -/
noncomputable def loBound (opts : Options) : ℝ :=
  min (opts.minWidth * 0.5) (max 0.5 (opts.maxWidth * 0.4))

/-- Amended upper width bound. -/
noncomputable def hiBound (opts : Options) : ℝ :=
  max (opts.maxWidth * 1.5) 0.5

lemma pressureOr_bounds (p : Point) (hp : validPressure p) :
    (0 : ℝ) ≤ (pressureOr p.pressure : ℝ) ∧ (pressureOr p.pressure : ℝ) ≤ 1 := by
  cases hpp : p.pressure with
  | none => simp [pressureOr]; norm_num
  | some v =>
    have hv := hp v hpp
    rw [pressureOr]
    by_cases hz : v = 0
    · simp [hz]; norm_num
    · simp [hz]
      constructor
      · exact_mod_cast hv.1
      · exact_mod_cast hv.2

lemma ns_bounds (v cap : ℝ) (hv : 0 ≤ v) (hc : 0 < cap) :
    0 ≤ min v cap / cap ∧ min v cap / cap ≤ 1 :=
  ⟨div_nonneg (le_min hv hc.le) hc.le,
   by rw [div_le_one hc]; exact min_le_right _ _⟩

lemma engineVelocity_nonneg (p1 p2 : Point) (h : p1.time ≤ p2.time) :
    0 ≤ engineVelocity p1 p2 := by
  rw [engineVelocity]
  apply div_nonneg (Real.sqrt_nonneg _)
  have : (0 : ℝ) ≤ ((p2.time - p1.time : ℚ) : ℝ) := by
    have : (0 : ℚ) ≤ p2.time - p1.time := by linarith
    exact_mod_cast this
  linarith

lemma drawCurveStep_width_bounds (opts : Options) (lw : ℝ) (pts : List Point)
    (hmin : 0 < opts.minWidth) (hle : opts.minWidth ≤ opts.maxWidth)
    (hpress : ∀ p ∈ pts, validPressure p)
    (htime : pts.Pairwise (fun a b => a.time ≤ b.time))
    (hlo : loBound opts ≤ lw) (hhi : lw ≤ hiBound opts) :
    ∀ seg lw2, drawCurveStep opts lw pts = some (seg, lw2) →
      (loBound opts ≤ seg.width ∧ seg.width ≤ hiBound opts) ∧ lw2 = seg.width := by
  intro seg lw2 hstep
  rw [drawCurveStep] at hstep
  by_cases hlen : pts.length < 3
  · rw [if_pos hlen] at hstep; exact absurd hstep (by simp)
  · rw [if_neg hlen] at hstep
    simp only [Option.some.injEq, Prod.mk.injEq] at hstep
    obtain ⟨hseg, hlw2⟩ := hstep
    -- facts about the window
    have h1lt : pts.length - 3 < pts.length := by omega
    have h2lt : pts.length - 2 < pts.length := by omega
    have hp1mem : pts.getD (pts.length - 3) default ∈ pts := by
      rw [List.getD_eq_getElem pts default h1lt]; exact List.getElem_mem h1lt
    have hp2mem : pts.getD (pts.length - 2) default ∈ pts := by
      rw [List.getD_eq_getElem pts default h2lt]; exact List.getElem_mem h2lt
    have hpt : (pts.getD (pts.length - 3) default).time ≤
        (pts.getD (pts.length - 2) default).time := by
      rw [List.getD_eq_getElem pts default h1lt, List.getD_eq_getElem pts default h2lt]
      exact List.pairwise_iff_getElem.mp htime _ _ h1lt h2lt (by omega)
    have hpress2 := pressureOr_bounds _ (hpress _ hp2mem)
    have hvel := engineVelocity_nonneg (pts.getD (pts.length - 3) default)
      (pts.getD (pts.length - 2) default) hpt
    have hmax0 : (0 : ℝ) < opts.maxWidth := lt_of_lt_of_le hmin hle
    -- target bounds
    set p1 := pts.getD (pts.length - 3) default
    set p2 := pts.getD (pts.length - 2) default
    have htarget :
        loBound opts ≤
          (if opts.tool = Tool.pencil then
            max 0.5 (opts.maxWidth * 0.4)
          else if opts.tool = Tool.calligraphy then
            if p2.pointerType = some "pen" then
              opts.minWidth + (opts.maxWidth * 1.5 - opts.minWidth) *
                (pressureOr p2.pressure : ℝ) ^ 2
            else
              opts.maxWidth * 1.5 - (min (engineVelocity p1 p2) 3.5 / 3.5) *
                (opts.maxWidth * 1.5 - opts.minWidth * 0.5)
          else
            if p2.pointerType = some "pen" then
              (opts.minWidth + (opts.maxWidth - opts.minWidth) *
                (pressureOr p2.pressure : ℝ)) * 1.1
            else
              opts.maxWidth - (min (engineVelocity p1 p2) 2.5 / 2.5) *
                (opts.maxWidth - opts.minWidth)) ∧
        (if opts.tool = Tool.pencil then
            max 0.5 (opts.maxWidth * 0.4)
          else if opts.tool = Tool.calligraphy then
            if p2.pointerType = some "pen" then
              opts.minWidth + (opts.maxWidth * 1.5 - opts.minWidth) *
                (pressureOr p2.pressure : ℝ) ^ 2
            else
              opts.maxWidth * 1.5 - (min (engineVelocity p1 p2) 3.5 / 3.5) *
                (opts.maxWidth * 1.5 - opts.minWidth * 0.5)
          else
            if p2.pointerType = some "pen" then
              (opts.minWidth + (opts.maxWidth - opts.minWidth) *
                (pressureOr p2.pressure : ℝ)) * 1.1
            else
              opts.maxWidth - (min (engineVelocity p1 p2) 2.5 / 2.5) *
                (opts.maxWidth - opts.minWidth)) ≤ hiBound opts := by
      rw [loBound, hiBound]
      split
      · constructor
        · exact min_le_right _ _
        · apply max_le
          · apply le_max_right
          · calc opts.maxWidth * 0.4 ≤ opts.maxWidth * 1.5 := by nlinarith
              _ ≤ _ := le_max_left _ _
      · split
        · split
          · obtain ⟨hpl, hpu⟩ := hpress2
            have hsq : (0:ℝ) ≤ (pressureOr p2.pressure : ℝ) ^ 2 := sq_nonneg _
            have hsq1 : (pressureOr p2.pressure : ℝ) ^ 2 ≤ 1 := by nlinarith
            constructor
            · calc min (opts.minWidth * 0.5) (max 0.5 (opts.maxWidth * 0.4))
                  ≤ opts.minWidth * 0.5 := min_le_left _ _
                _ ≤ _ := by nlinarith
            · calc opts.minWidth + (opts.maxWidth * 1.5 - opts.minWidth) *
                    (pressureOr p2.pressure : ℝ) ^ 2
                  ≤ opts.maxWidth * 1.5 := by nlinarith
                _ ≤ _ := le_max_left _ _
          · obtain ⟨hnl, hnu⟩ := ns_bounds (engineVelocity p1 p2) 3.5 hvel (by norm_num)
            constructor
            · calc min (opts.minWidth * 0.5) (max 0.5 (opts.maxWidth * 0.4))
                  ≤ opts.minWidth * 0.5 := min_le_left _ _
                _ ≤ _ := by nlinarith
            · calc opts.maxWidth * 1.5 - (min (engineVelocity p1 p2) 3.5 / 3.5) *
                    (opts.maxWidth * 1.5 - opts.minWidth * 0.5)
                  ≤ opts.maxWidth * 1.5 := by nlinarith
                _ ≤ _ := le_max_left _ _
        · split
          · obtain ⟨hpl, hpu⟩ := hpress2
            constructor
            · calc min (opts.minWidth * 0.5) (max 0.5 (opts.maxWidth * 0.4))
                  ≤ opts.minWidth * 0.5 := min_le_left _ _
                _ ≤ _ := by nlinarith
            · calc (opts.minWidth + (opts.maxWidth - opts.minWidth) *
                    (pressureOr p2.pressure : ℝ)) * 1.1
                  ≤ opts.maxWidth * 1.5 := by nlinarith
                _ ≤ _ := le_max_left _ _
          · obtain ⟨hnl, hnu⟩ := ns_bounds (engineVelocity p1 p2) 2.5 hvel (by norm_num)
            constructor
            · calc min (opts.minWidth * 0.5) (max 0.5 (opts.maxWidth * 0.4))
                  ≤ opts.minWidth * 0.5 := min_le_left _ _
                _ ≤ _ := by nlinarith
            · calc opts.maxWidth - (min (engineVelocity p1 p2) 2.5 / 2.5) *
                    (opts.maxWidth - opts.minWidth)
                  ≤ opts.maxWidth * 1.5 := by nlinarith
                _ ≤ _ := le_max_left _ _
    subst hseg
    subst hlw2
    refine ⟨?_, rfl⟩
    dsimp only
    obtain ⟨hTl, hTu⟩ := htarget
    by_cases hk : opts.tool = Tool.pencil
    · simp only [if_pos hk] at hTl hTu ⊢
      constructor <;> linarith
    · simp only [if_neg hk] at hTl hTu ⊢
      constructor <;> linarith



/-- The tool-appropriate initial `lastWidth` guess lies inside the
amended interval. -/
lemma initWidth_bounds (opts : Options) (p : Point)
    (hmin : 0 < opts.minWidth) (hle : opts.minWidth ≤ opts.maxWidth)
    (hp : validPressure p) :
    loBound opts ≤ initWidth opts p ∧ initWidth opts p ≤ hiBound opts := by
  have hmax0 : (0 : ℝ) < opts.maxWidth := lt_of_lt_of_le hmin hle
  have hLle : loBound opts ≤ opts.minWidth * 0.5 := min_le_left _ _
  have hUge : opts.maxWidth * 1.5 ≤ hiBound opts := le_max_left _ _
  rw [initWidth]
  split
  · constructor
    · calc loBound opts ≤ opts.minWidth * 0.5 := hLle
        _ ≤ opts.maxWidth * 0.5 := by nlinarith
    · calc opts.maxWidth * 0.5 ≤ opts.maxWidth * 1.5 := by nlinarith
        _ ≤ _ := hUge
  · split
    · obtain ⟨hpl, hpu⟩ := pressureOr_bounds p hp
      constructor
      · calc loBound opts ≤ opts.minWidth * 0.5 := hLle
          _ ≤ opts.minWidth + (opts.maxWidth - opts.minWidth) *
              (pressureOr p.pressure : ℝ) := by nlinarith
      · calc opts.minWidth + (opts.maxWidth - opts.minWidth) *
              (pressureOr p.pressure : ℝ)
            ≤ opts.maxWidth := by nlinarith
          _ ≤ opts.maxWidth * 1.5 := by nlinarith
          _ ≤ _ := hUge
    · constructor
      · calc loBound opts ≤ opts.minWidth * 0.5 := hLle
          _ ≤ (opts.minWidth + opts.maxWidth) / 2 := by nlinarith
      · calc (opts.minWidth + opts.maxWidth) / 2 ≤ opts.maxWidth := by nlinarith
          _ ≤ opts.maxWidth * 1.5 := by nlinarith
          _ ≤ _ := hUge

lemma livePaintAux_bounds (opts : Options)
    (hmin : 0 < opts.minWidth) (hle : opts.minWidth ≤ opts.maxWidth) :
    ∀ (rest acc : List Point) (lw : ℝ),
      (∀ p ∈ acc ++ rest, validPressure p) →
      (acc ++ rest).Pairwise (fun a b => a.time ≤ b.time) →
      loBound opts ≤ lw → lw ≤ hiBound opts →
      (∀ seg ∈ (livePaintAux opts acc rest lw).1,
        loBound opts ≤ seg.width ∧ seg.width ≤ hiBound opts) ∧
      loBound opts ≤ (livePaintAux opts acc rest lw).2 ∧
      (livePaintAux opts acc rest lw).2 ≤ hiBound opts := by
  intro rest
  induction rest with
  | nil =>
    intro acc lw _ _ hlo hhi
    refine ⟨?_, hlo, hhi⟩
    intro seg hseg
    simp [livePaintAux] at hseg
  | cons p rest' ih =>
    intro acc lw hpress htime hlo hhi
    have hre : acc ++ p :: rest' = (acc ++ [p]) ++ rest' := List.append_cons acc p rest'
    rw [hre] at hpress htime
    have hpress' : ∀ q ∈ acc ++ [p], validPressure q := by
      intro q hq; exact hpress q (List.mem_append_left _ hq)
    have htime' : (acc ++ [p]).Pairwise (fun a b => a.time ≤ b.time) :=
      (List.pairwise_append.mp htime).1
    rw [livePaintAux]
    cases hdc : drawCurveStep opts lw (acc ++ [p]) with
    | none =>
      simp only []
      exact ih (acc ++ [p]) lw hpress htime hlo hhi
    | some pr =>
      obtain ⟨seg, lw'⟩ := pr
      have hb := drawCurveStep_width_bounds opts lw (acc ++ [p]) hmin hle hpress'
        htime' hlo hhi seg lw' hdc
      obtain ⟨⟨hsl, hsu⟩, hlw'⟩ := hb
      have hlw'lo : loBound opts ≤ lw' := by rw [hlw']; exact hsl
      have hlw'hi : lw' ≤ hiBound opts := by rw [hlw']; exact hsu
      have := ih (acc ++ [p]) lw' hpress htime hlw'lo hlw'hi
      obtain ⟨hsegs, hfl, hfh⟩ := this
      simp only []
      refine ⟨?_, hfl, hfh⟩
      intro g hg
      rcases List.mem_cons.mp hg with hg1 | hg2
      · subst hg1; exact ⟨hsl, hsu⟩
      · exact hsegs g hg2

/-- C3 (amended): for every tool, options with
`0 < minWidth <= maxWidth`, and chronological stroke whose recorded
pressures lie in [0,1], every blended width assigned to `lastWidth` and
used as `lineWidth` lies within
`[min(minWidth*0.5, max(0.5, maxWidth*0.4)), max(maxWidth*1.5, 0.5)]`.
The claimed interval `[min(minWidth, minWidth*0.5), maxWidth*1.5]`
fails for the pencil tool, whose constant target
`max(0.5, maxWidth*0.4)` can fall below `minWidth*0.5` (or above
`maxWidth*1.5` for tiny `maxWidth`); see the counterexample. -/
theorem widths_within_amended_bounds (opts : Options) (s : List Point)
    (hmin : 0 < opts.minWidth) (hle : opts.minWidth ≤ opts.maxWidth)
    (hpress : ∀ p ∈ s, validPressure p)
    (htime : s.Pairwise (fun a b => a.time ≤ b.time)) :
    ∀ seg ∈ liveCapture opts s,
      min (opts.minWidth * 0.5) (max 0.5 (opts.maxWidth * 0.4)) ≤ seg.width ∧
      seg.width ≤ max (opts.maxWidth * 1.5) 0.5 := by
  rcases s with _ | ⟨p0, rest⟩
  · intro seg hseg; simp [liveCapture] at hseg
  · intro seg hseg
    rw [liveCapture] at hseg
    rw [liveCaptureWith] at hseg
    have hinit := initWidth_bounds opts p0 hmin hle (hpress p0 (by simp))
    have hb := livePaintAux_bounds opts hmin hle rest [p0] (initWidth opts p0)
      (by simpa using hpress) (by simpa using htime) hinit.1 hinit.2
    have := hb.1 seg hseg
    rw [loBound, hiBound] at this
    exact this



/-- Pencil options with `minWidth = maxWidth = 2`. -/
noncomputable def covPencil2 : Options := ⟨"#000000", 2, 2, 0, 0, Tool.pencil⟩

lemma cq_validPressure : ∀ p ∈ ([cq1, cq2, cq3] : List Point), validPressure p := by
  intro p hp
  simp only [List.mem_cons, List.not_mem_nil, or_false] at hp
  rcases hp with h | h | h <;> subst h <;> intro v hv <;> simp [cq1, cq2, cq3] at hv

lemma cq_chronological :
    ([cq1, cq2, cq3] : List Point).Pairwise (fun a b => a.time ≤ b.time) := by
  norm_num [cq1, cq2, cq3, List.pairwise_cons]

/-- C3 counterexample: with the pencil tool and
`minWidth = maxWidth = 2` (all claim hypotheses satisfied) the single
painted width is `21/25 = 0.84`, strictly below the claimed lower bound
`min(minWidth, minWidth*0.5) = 1`. -/
theorem pencil_width_below_claimed_lower_bound :
    (0 : ℝ) < covPencil2.minWidth ∧
    covPencil2.minWidth ≤ covPencil2.maxWidth ∧
    (∀ p ∈ ([cq1, cq2, cq3] : List Point), validPressure p) ∧
    ([cq1, cq2, cq3] : List Point).Pairwise (fun a b => a.time ≤ b.time) ∧
    ((liveCapture covPencil2 [cq1, cq2, cq3]).map fun g => g.width) = [21/25] ∧
    (21/25 : ℝ) < min covPencil2.minWidth (covPencil2.minWidth * 0.5) := by
  refine ⟨by norm_num [covPencil2], by norm_num [covPencil2],
    cq_validPressure, cq_chronological, ?_, ?_⟩
  · simp [liveCapture, liveCaptureWith, livePaintAux, drawCurveStep, initWidth,
      covPencil2, cq1, cq2, cq3]
    norm_num
  · rw [show min covPencil2.minWidth (covPencil2.minWidth * 0.5) = 1 from by
      norm_num [covPencil2, min_def]]
    norm_num

/-- Witness for `widths_within_amended_bounds` at the concrete pencil
stroke. -/
theorem widths_within_amended_bounds_witness :
    ((0 : ℝ) < covPencil.minWidth ∧ covPencil.minWidth ≤ covPencil.maxWidth) ∧
    ∀ seg ∈ liveCapture covPencil [cq1, cq2, cq3],
      min (covPencil.minWidth * 0.5) (max 0.5 (covPencil.maxWidth * 0.4)) ≤ seg.width ∧
      seg.width ≤ max (covPencil.maxWidth * 1.5) 0.5 :=
  ⟨⟨by norm_num [covPencil], by norm_num [covPencil]⟩,
   widths_within_amended_bounds covPencil [cq1, cq2, cq3] (by norm_num [covPencil]) (by norm_num [covPencil])
     cq_validPressure cq_chronological⟩


end HanSign
